import Mathlib

/-!
Shallow embedding of the client-side list state synchronization logic of
`src/App.tsx` (a single-page list-management widget): pagination with
scroll-append, search-triggered resets, selection toggling, and
drag-and-drop reordering, together with the loading-flag guard.
-/

namespace ListSync

/-- An item record, `{ id: number; name: string }` (App.tsx lines 4-7). -/
structure Item where
  id : Int
  name : String
deriving DecidableEq, Repr

/-- The reorder computation of `handleDrop` (App.tsx lines 115-135):
returns the list unchanged when the dragged id equals the target id or when
either id is not found (`findIndex === -1`); otherwise removes the dragged
item (`splice(draggedItemIndex, 1)`) and inserts it at the target's
pre-removal index (`splice(targetItemIndex, 0, movedItem)`).
`List.findIdx` returns `items.length` when no element matches, which models
JavaScript `findIndex` returning `-1`. -/
def reorder (items : List Item) (draggedId targetId : Int) : List Item :=
  if draggedId = targetId then items
  else
    let draggedItemIndex := items.findIdx fun item => item.id == draggedId
    let targetItemIndex := items.findIdx fun item => item.id == targetId
    if h : draggedItemIndex < items.length ∧ targetItemIndex < items.length then
      (items.eraseIdx draggedItemIndex).insertIdx targetItemIndex
        (items.get ⟨draggedItemIndex, h.1⟩)
    else items

example : reorder [⟨1, "A"⟩, ⟨2, "B"⟩, ⟨3, "C"⟩, ⟨4, "D"⟩] 1 3
    = [⟨2, "B"⟩, ⟨3, "C"⟩, ⟨1, "A"⟩, ⟨4, "D"⟩] := by decide

example : reorder [⟨1, "A"⟩, ⟨2, "B"⟩, ⟨3, "C"⟩, ⟨4, "D"⟩] 3 1
    = [⟨3, "C"⟩, ⟨1, "A"⟩, ⟨2, "B"⟩, ⟨4, "D"⟩] := by decide

example : reorder [⟨1, "A"⟩, ⟨2, "B"⟩] 1 1 = [⟨1, "A"⟩, ⟨2, "B"⟩] := by decide

example : reorder [⟨1, "A"⟩, ⟨2, "B"⟩] 1 7 = [⟨1, "A"⟩, ⟨2, "B"⟩] := by decide

/-- Erasing at the index found by `findIdx p` erases the first element
satisfying `p`. -/
theorem eraseIdx_findIdx_eq_eraseP (p : Item → Bool) (l : List Item) :
    l.eraseIdx (l.findIdx p) = l.eraseP p := by
  induction l with
  | nil => rfl
  | cons a l ih =>
    by_cases h : p a
    · simp [List.findIdx_cons, h]
    · simp [List.findIdx_cons, h, ih]

/-- Inserting at an index within bounds is take-cons-drop. -/
theorem insertIdx_eq_take_cons_drop (a : Item) (l : List Item) (n : Nat)
    (h : n ≤ l.length) :
    l.insertIdx n a = l.take n ++ a :: l.drop n := by
  induction l generalizing n with
  | nil =>
    have hn : n = 0 := by simpa using h
    subst hn
    rfl
  | cons b l ih =>
    cases n with
    | zero => rfl
    | succ n =>
      simp only [List.insertIdx_succ_cons, List.take_succ_cons, List.drop_succ_cons,
        List.cons_append]
      rw [ih n (by simpa using h)]

/-- Shape of a successful GET `/items` response:
`{ items: Item[], selected: int[] }` (App.tsx lines 66-71). -/
structure FetchResponse where
  items : List Item
  selected : List Int
deriving DecidableEq, Repr

/-- The component state of `App` (App.tsx lines 47-51), plus the console
log so that the error path of the fetch effect is observable.
`selected` is a JavaScript `Set<number>`, modelled as a `Finset Int`. -/
structure AppState where
  items : List Item
  selected : Finset Int
  originalItems : List Item
  page : Nat
  query : String
  log : List String
deriving DecidableEq

/-- The initial component state (App.tsx lines 47-51). -/
def initialState : AppState :=
  { items := [], selected := ∅, originalItems := [], page := 1, query := "", log := [] }

/-- The `.then` handler of the fetch effect (App.tsx lines 66-72): page 1
replaces `items`, later pages append; `originalItems` is replaced by the
fetched items and `selected` by `new Set(res.data.selected)`. `page` is the
value captured by the effect closure. -/
def applyFetchSuccess (s : AppState) (page : Nat) (res : FetchResponse) : AppState :=
  { s with
    items := if page = 1 then res.items else s.items ++ res.items
    originalItems := res.items
    selected := res.selected.toFinset }

/-- The `.catch` handler of the fetch effect (App.tsx lines 73-75): the
error is logged with `console.error` and no state setter is called. -/
def applyFetchFailure (s : AppState) (error : String) : AppState :=
  { s with log := s.log ++ ["Ошибка загрузки данных: " ++ error] }

/-- The function `handleToggleSelect` (App.tsx lines 94-109): flips membership of `id`
in the selection set (the fire-and-forget POST `/save-selection` carries no
state change). -/
def handleToggleSelect (s : AppState) (id : Int) : AppState :=
  { s with
    selected := if id ∈ s.selected then s.selected.erase id else insert id s.selected }

/-- The toggle handler iterated `n` times on the same `id`. -/
def toggleIter (s : AppState) (id : Int) : Nat → AppState
  | 0 => s
  | n + 1 => handleToggleSelect (toggleIter s id n) id

/-- The function `handleSearchChange` (App.tsx lines 137-145): stores the new query,
resets the page to 1, and — when the new query is the empty string
(JavaScript `!query`) — restores `items` from `originalItems`. -/
def handleSearchChange (s : AppState) (newQuery : String) : AppState :=
  { s with
    query := newQuery
    page := 1
    items := if newQuery = "" then s.originalItems else s.items }

/-- The function `handleDrop` (App.tsx lines 115-135) at the state level: only `items`
changes (the POST `/save-order` carries no state change). -/
def handleDrop (s : AppState) (draggedId targetId : Int) : AppState :=
  { s with items := reorder s.items draggedId targetId }

/-- The events that mutate the component state: a settled fetch (success
or failure), a search-box edit, a selection toggle, a drop, and a
near-bottom scroll (App.tsx lines 85-92, which increments `page`). -/
inductive AppEvent where
  | fetchOk (page : Nat) (res : FetchResponse)
  | fetchErr (error : String)
  | search (newQuery : String)
  | toggle (id : Int)
  | dropOn (draggedId targetId : Int)
  | scrollNearBottom
deriving DecidableEq, Repr

/-- One state-update step of the component. -/
def appStep (s : AppState) : AppEvent → AppState
  | .fetchOk p res => applyFetchSuccess s p res
  | .fetchErr e => applyFetchFailure s e
  | .search q => handleSearchChange s q
  | .toggle id => handleToggleSelect s id
  | .dropOn d t => handleDrop s d t
  | .scrollNearBottom => { s with page := s.page + 1 }

/-- States reachable from the initial state under arbitrary events,
including arbitrary server responses. -/
inductive Reachable : AppState → Prop where
  | init : Reachable initialState
  | step (s : AppState) (e : AppEvent) : Reachable s → Reachable (appStep s e)

/-- A well-behaved server response: its item ids are pairwise distinct,
and when it is applied as a page-append (captured `page ≠ 1`) its ids are
disjoint from the ids already in `items`. -/
def GoodResponse (s : AppState) (page : Nat) (res : FetchResponse) : Prop :=
  (res.items.map Item.id).Nodup ∧
    (page ≠ 1 → ∀ x ∈ res.items, ∀ y ∈ s.items, x.id ≠ y.id)

/-- States reachable when every applied fetch response is well behaved. -/
inductive GoodReachable : AppState → Prop where
  | init : GoodReachable initialState
  | fetchOk (s : AppState) (p : Nat) (res : FetchResponse) :
      GoodReachable s → GoodResponse s p res →
      GoodReachable (appStep s (.fetchOk p res))
  | other (s : AppState) (e : AppEvent) :
      GoodReachable s → (∀ p res, e ≠ AppEvent.fetchOk p res) →
      GoodReachable (appStep s e)

/-- The loading-flag guard (App.tsx lines 53, 60-79, 85-92): `loading` is
`loadingRef.current`; `inFlight` is a ghost count of unsettled GET `/items`
requests. -/
structure SyncState where
  loading : Bool
  inFlight : Nat
deriving DecidableEq, Repr

/-- Fetch-guard events: a fetch request (the effect body running after a
scroll- or query-triggered dependency change) and a request settling with
success or failure. -/
inductive FetchEvent where
  | request
  | settleOk
  | settleErr
deriving DecidableEq, Repr

/-- The guard's transition function: a request is dropped when `loading`
is already set (App.tsx line 61), otherwise it sets the flag and starts a
request (line 62); `.finally` clears the flag when the request settles,
on success or failure (lines 76-78). -/
def fetchStep (s : SyncState) : FetchEvent → SyncState
  | .request =>
      if s.loading then s else { loading := true, inFlight := s.inFlight + 1 }
  | .settleOk => { loading := false, inFlight := s.inFlight - 1 }
  | .settleErr => { loading := false, inFlight := s.inFlight - 1 }

/-- Reachable guard states: settle events only arrive for a request that
is actually in flight. -/
inductive SyncReachable : SyncState → Prop where
  | init : SyncReachable ⟨false, 0⟩
  | request (s : SyncState) : SyncReachable s → SyncReachable (fetchStep s .request)
  | settleOk (s : SyncState) :
      SyncReachable s → 0 < s.inFlight → SyncReachable (fetchStep s .settleOk)
  | settleErr (s : SyncState) :
      SyncReachable s → 0 < s.inFlight → SyncReachable (fetchStep s .settleErr)

/-- Consing the element at index `i` onto the list with index `i` erased
is a permutation of the original list. -/
theorem cons_eraseIdx_perm {α : Type} (l : List α) (i : Nat) (h : i < l.length) :
    (l[i] :: l.eraseIdx i).Perm l := by
  rw [List.eraseIdx_eq_take_drop_succ]
  have h1 : (l.take i ++ l[i] :: l.drop (i + 1)).Perm
      (l[i] :: (l.take i ++ l.drop (i + 1))) := List.perm_middle
  have h2 : l.take i ++ l[i] :: l.drop (i + 1) = l := by
    rw [List.getElem_cons_drop]
    exact List.take_append_drop i l
  exact h1.symm.trans (by rw [h2])

/-- The reorder operation always permutes the list. -/
theorem reorder_perm_aux (items : List Item) (d t : Int) :
    (reorder items d t).Perm items := by
  unfold reorder
  split
  · exact List.Perm.refl _
  · dsimp only
    split
    · rename_i h
      refine (List.perm_insertIdx _ _ ?_).trans ?_
      · rw [List.length_eraseIdx_of_lt h.1]
        omega
      · exact cons_eraseIdx_perm items _ h.1
    · exact List.Perm.refl _

/-- A toggle always flips membership of the toggled id. -/
theorem toggle_flips (s : AppState) (id : Int) :
    id ∈ (handleToggleSelect s id).selected ↔ id ∉ s.selected := by
  simp only [handleToggleSelect]
  by_cases h : id ∈ s.selected
  · simp [h]
  · simp [h]

/-- The guard invariant: at most one request is in flight, and the flag is
set exactly while one is. -/
theorem sync_invariant_aux (s : SyncState) (h : SyncReachable s) :
    s.inFlight ≤ 1 ∧ (s.loading = true ↔ s.inFlight = 1) := by
  induction h with
  | init => simp
  | request s hs ih =>
    obtain ⟨h1, h2⟩ := ih
    by_cases hl : s.loading = true
    · have h3 := h2.mp hl
      simp [fetchStep, hl, h3]
    · have h0 : s.inFlight = 0 := by
        have : s.inFlight ≠ 1 := fun he => hl (h2.mpr he)
        omega
      simp [fetchStep, hl, h0]
  | settleOk s hs hpos ih =>
    obtain ⟨h1, h2⟩ := ih
    have h0 : s.inFlight = 1 := by omega
    simp [fetchStep, h0]
  | settleErr s hs hpos ih =>
    obtain ⟨h1, h2⟩ := ih
    have h0 : s.inFlight = 1 := by omega
    simp [fetchStep, h0]

/-- C10: for every ItemCollection and every pair of ids, the ItemCollection
produced by `reorder(draggedId, targetId)` is a permutation of the prior
ItemCollection: same length, same items, none lost, duplicated or altered. -/
theorem reorder_is_permutation (items : List Item) (draggedId targetId : Int) :
    (reorder items draggedId targetId).Perm items :=
  reorder_perm_aux items draggedId targetId

/-- C5: `reorder(a, b)` with `a = b`, or with `a` or `b` absent from the
ItemCollection, leaves the ItemCollection unchanged. -/
theorem reorder_no_op (items : List Item) (d t : Int)
    (h : d = t ∨ (∀ x ∈ items, x.id ≠ d) ∨ (∀ x ∈ items, x.id ≠ t)) :
    reorder items d t = items := by
  unfold reorder
  rcases h with h | h | h
  · simp [h]
  · by_cases hdt : d = t
    · simp [hdt]
    · have hd : items.findIdx (fun x => x.id == d) = items.length :=
        List.findIdx_eq_length.mpr fun x hx => by simpa using h x hx
      rw [if_neg hdt]
      dsimp only
      rw [dif_neg]
      rw [hd]
      simp
  · by_cases hdt : d = t
    · simp [hdt]
    · have ht : items.findIdx (fun x => x.id == t) = items.length :=
        List.findIdx_eq_length.mpr fun x hx => by simpa using h x hx
      rw [if_neg hdt]
      dsimp only
      rw [dif_neg]
      rw [ht]
      simp

/-- Witness for C5 at a concrete input. -/
theorem reorder_no_op_witness :
    ((1 : Int) = 1 ∨ (∀ x ∈ [Item.mk 1 "A", Item.mk 2 "B"], x.id ≠ 1) ∨
        (∀ x ∈ [Item.mk 1 "A", Item.mk 2 "B"], x.id ≠ 1)) ∧
      reorder [Item.mk 1 "A", Item.mk 2 "B"] 1 1 = [Item.mk 1 "A", Item.mk 2 "B"] :=
  ⟨Or.inl rfl, reorder_no_op [Item.mk 1 "A", Item.mk 2 "B"] 1 1 (Or.inl rfl)⟩

/-- C2: a successful fetch for page 1 replaces the ItemCollection with the
fetched items, and a successful fetch for a page greater than 1 appends the
fetched items to the end of the existing ItemCollection, preserving the
prior items and their order. -/
theorem fetchPage_replace_append (s : AppState) (res : FetchResponse) (p : Nat)
    (hp : 1 < p) :
    (applyFetchSuccess s 1 res).items = res.items ∧
    (applyFetchSuccess s p res).items = s.items ++ res.items := by
  have hne : p ≠ 1 := by omega
  exact ⟨by simp [applyFetchSuccess], by simp [applyFetchSuccess, hne]⟩

/-- Witness for C2 at a concrete input. -/
theorem fetchPage_replace_append_witness :
    1 < 2 ∧
      ((applyFetchSuccess initialState 1 ⟨[Item.mk 1 "A"], []⟩).items
          = (⟨[Item.mk 1 "A"], []⟩ : FetchResponse).items ∧
        (applyFetchSuccess initialState 2 ⟨[Item.mk 1 "A"], []⟩).items
          = initialState.items ++ (⟨[Item.mk 1 "A"], []⟩ : FetchResponse).items) :=
  ⟨by decide, fetchPage_replace_append initialState ⟨[Item.mk 1 "A"], []⟩ 2 (by decide)⟩

/-- C3: clearing the query resets the page to 1, stores the empty query,
and immediately restores the ItemCollection from OriginalItems — in
particular, right after a successful fetch, from that fetch's items —
without waiting for a new fetch. -/
theorem clear_query_restores (s : AppState) (p : Nat) (res : FetchResponse) :
    (handleSearchChange s "").page = 1 ∧
    (handleSearchChange s "").query = "" ∧
    (handleSearchChange s "").items = s.originalItems ∧
    (handleSearchChange (applyFetchSuccess s p res) "").items = res.items :=
  ⟨rfl, rfl, by simp [handleSearchChange], by simp [handleSearchChange, applyFetchSuccess]⟩

/-- C7: a failed fetch only logs the error; `items`, `originalItems`,
`selected`, `page` and `query` are all left unchanged. -/
theorem fetch_failure_leaves_state (s : AppState) (error : String) :
    (applyFetchFailure s error).items = s.items ∧
    (applyFetchFailure s error).originalItems = s.originalItems ∧
    (applyFetchFailure s error).selected = s.selected ∧
    (applyFetchFailure s error).page = s.page ∧
    (applyFetchFailure s error).query = s.query ∧
    (applyFetchFailure s error).log = s.log ++ ["Ошибка загрузки данных: " ++ error] :=
  ⟨rfl, rfl, rfl, rfl, rfl, rfl⟩

/-- C8: every successful fetch, for any page, replaces OriginalItems with
exactly the fetched page's items and replaces the SelectionSet with exactly
the server-reported selection of that response. -/
theorem fetchPage_sets_snapshot_and_selection (s : AppState) (p : Nat)
    (res : FetchResponse) :
    (applyFetchSuccess s p res).originalItems = res.items ∧
    ∀ i : Int, i ∈ (applyFetchSuccess s p res).selected ↔ i ∈ res.selected :=
  ⟨rfl, fun i => by simp [applyFetchSuccess]⟩

/-- C4: starting from any state not containing `id`, after `n` calls of
`toggleSelection(id)` the id is selected iff `n` is odd. -/
theorem toggle_parity (s : AppState) (id : Int) (n : Nat) (h : id ∉ s.selected) :
    id ∈ (toggleIter s id n).selected ↔ n % 2 = 1 := by
  induction n with
  | zero => simpa [toggleIter] using h
  | succ n ih =>
    simp only [toggleIter, toggle_flips, ih]
    omega

/-- Witness for C4 at a concrete input. -/
theorem toggle_parity_witness :
    (5 : Int) ∉ initialState.selected ∧
      ((5 : Int) ∈ (toggleIter initialState 5 3).selected ↔ 3 % 2 = 1) :=
  ⟨by decide, toggle_parity initialState 5 3 (by decide)⟩

/-- C6: in every reachable guard state at most one fetch is in flight; a
fetch-request event arriving while the flag is set is dropped (the state is
unchanged, nothing is queued); a request arriving while the flag is clear
sets the flag and starts exactly one request; and settling — with success
or failure — clears the flag. -/
theorem single_flight_guard (s : SyncState) (h : SyncReachable s) :
    s.inFlight ≤ 1 ∧
    (s.loading = true → fetchStep s .request = s) ∧
    (s.loading = false →
      (fetchStep s .request).loading = true ∧
        (fetchStep s .request).inFlight = s.inFlight + 1) ∧
    (fetchStep s .settleOk).loading = false ∧
    (fetchStep s .settleErr).loading = false := by
  obtain ⟨h1, _⟩ := sync_invariant_aux s h
  refine ⟨h1, ?_, ?_, rfl, rfl⟩
  · intro hl
    simp [fetchStep, hl]
  · intro hl
    simp [fetchStep, hl]

/-- Witness for C6 at the initial guard state. -/
theorem single_flight_guard_witness :
    SyncReachable ⟨false, 0⟩ ∧
      ((⟨false, 0⟩ : SyncState).inFlight ≤ 1 ∧
      ((⟨false, 0⟩ : SyncState).loading = true →
        fetchStep ⟨false, 0⟩ .request = ⟨false, 0⟩) ∧
      ((⟨false, 0⟩ : SyncState).loading = false →
        (fetchStep ⟨false, 0⟩ .request).loading = true ∧
          (fetchStep ⟨false, 0⟩ .request).inFlight
            = (⟨false, 0⟩ : SyncState).inFlight + 1) ∧
      (fetchStep ⟨false, 0⟩ .settleOk).loading = false ∧
      (fetchStep ⟨false, 0⟩ .settleErr).loading = false) :=
  ⟨SyncReachable.init, single_flight_guard ⟨false, 0⟩ SyncReachable.init⟩

/-- C9 (amended): in every state reachable with well-behaved server
responses — each applied response has pairwise-distinct item ids and a
page-append response's ids are disjoint from the current ItemCollection —
the ids in the ItemCollection, and in OriginalItems, are pairwise unique;
the invariant is preserved by page-append, full replace, query-clear
restore, and reorder. -/
theorem ids_nodup_of_good_server (s : AppState) (h : GoodReachable s) :
    (s.items.map Item.id).Nodup ∧ (s.originalItems.map Item.id).Nodup := by
  induction h with
  | init => exact ⟨List.nodup_nil, List.nodup_nil⟩
  | fetchOk s p res hs hgood ih =>
    obtain ⟨hi, _⟩ := ih
    obtain ⟨hres, hdisj⟩ := hgood
    simp only [appStep, applyFetchSuccess]
    refine ⟨?_, hres⟩
    by_cases hp : p = 1
    · simpa [hp] using hres
    · simp only [if_neg hp, List.map_append, List.nodup_append]
      refine ⟨hi, hres, ?_⟩
      intro a ha hb
      obtain ⟨y, hy, hya⟩ := List.mem_map.mp ha
      obtain ⟨x, hx, hxa⟩ := List.mem_map.mp hb
      exact hdisj hp x hx y hy (hxa.trans hya.symm)
  | other s e hs hne ih =>
    obtain ⟨hi, ho⟩ := ih
    cases e with
    | fetchOk p res => exact absurd rfl (hne p res)
    | fetchErr err => exact ⟨hi, ho⟩
    | search q =>
      refine ⟨?_, ho⟩
      simp only [appStep, handleSearchChange]
      by_cases hq : q = ""
      · simpa [hq] using ho
      · simpa [hq] using hi
    | toggle id => exact ⟨hi, ho⟩
    | dropOn d t =>
      refine ⟨?_, ho⟩
      exact ((reorder_perm_aux s.items d t).map Item.id).nodup_iff.mpr hi
    | scrollNearBottom => exact ⟨hi, ho⟩

/-- Witness for C9 (amended) at the initial state. -/
theorem ids_nodup_of_good_server_witness :
    GoodReachable initialState ∧
      ((initialState.items.map Item.id).Nodup ∧
        (initialState.originalItems.map Item.id).Nodup) :=
  ⟨GoodReachable.init, ids_nodup_of_good_server initialState GoodReachable.init⟩

/-- A response whose single item satisfies any page-1 fetch, used to build
a reachable state with a duplicated id. -/
def dupResponse : FetchResponse := ⟨[Item.mk 1 "A"], []⟩

/-- The state after a page-1 fetch of `dupResponse` followed by a page-2
append of the same response: its `items` are `[⟨1, A⟩, ⟨1, A⟩]`. -/
def dupState : AppState :=
  appStep (appStep initialState (.fetchOk 1 dupResponse)) (.fetchOk 2 dupResponse)

/-- Counterexample to C9 as stated: under arbitrary server responses a
reachable state can carry a duplicated item id (the code never dedupes an
appended page against the items already shown). -/
theorem ids_can_collide :
    Reachable dupState ∧ ¬ (dupState.items.map Item.id).Nodup :=
  ⟨Reachable.step _ _ (Reachable.step _ _ Reachable.init), by decide⟩

/-- A sample ItemCollection with ids 1, 2, 3, 4. -/
def sampleItems : List Item :=
  [Item.mk 1 "A", Item.mk 2 "B", Item.mk 3 "C", Item.mk 4 "D"]

/-- C1: for an ItemCollection containing distinct ids `draggedId ≠
targetId`, `reorder` removes the item carrying the dragged id and reinserts
it in the post-removal list at the slot numbered by the target item's
current (pre-removal) index — a single-item move; concretely, on ids
`[1, 2, 3, 4]`, `reorder(1, 3)` yields `[2, 3, 1, 4]`. -/
theorem reorder_single_move (items : List Item) (d t : Int) (hne : d ≠ t)
    (hd : ∃ x ∈ items, x.id = d) (ht : ∃ x ∈ items, x.id = t) :
    (∃ dragged ∈ items, dragged.id = d ∧
      reorder items d t =
        ((items.eraseP fun x => x.id == d).take
            (items.findIdx fun x => x.id == t))
          ++ dragged ::
            ((items.eraseP fun x => x.id == d).drop
              (items.findIdx fun x => x.id == t))) ∧
    reorder sampleItems 1 3
      = [Item.mk 2 "B", Item.mk 3 "C", Item.mk 1 "A", Item.mk 4 "D"] := by
  refine ⟨?_, by decide⟩
  have hd' : items.findIdx (fun x => x.id == d) < items.length :=
    List.findIdx_lt_length_of_exists (by
      obtain ⟨x, hx, hxd⟩ := hd
      exact ⟨x, hx, by simpa using hxd⟩)
  have ht' : items.findIdx (fun x => x.id == t) < items.length :=
    List.findIdx_lt_length_of_exists (by
      obtain ⟨x, hx, hxt⟩ := ht
      exact ⟨x, hx, by simpa using hxt⟩)
  refine ⟨items[items.findIdx fun x => x.id == d], List.getElem_mem hd', ?_, ?_⟩
  · have := List.findIdx_getElem (w := hd')
    simpa using this
  · unfold reorder
    rw [if_neg hne]
    dsimp only
    rw [dif_pos ⟨hd', ht'⟩, ← eraseIdx_findIdx_eq_eraseP]
    refine insertIdx_eq_take_cons_drop _ _ _ ?_
    rw [List.length_eraseIdx_of_lt hd']
    omega

/-- Witness for C1 at the sample collection with `reorder(1, 3)`. -/
theorem reorder_single_move_witness :
    ((1 : Int) ≠ 3 ∧ (∃ x ∈ sampleItems, x.id = 1) ∧
        (∃ x ∈ sampleItems, x.id = 3)) ∧
      ((∃ dragged ∈ sampleItems, dragged.id = 1 ∧
        reorder sampleItems 1 3 =
          ((sampleItems.eraseP fun x => x.id == 1).take
              (sampleItems.findIdx fun x => x.id == 3))
            ++ dragged ::
              ((sampleItems.eraseP fun x => x.id == 1).drop
                (sampleItems.findIdx fun x => x.id == 3))) ∧
      reorder sampleItems 1 3
        = [Item.mk 2 "B", Item.mk 3 "C", Item.mk 1 "A", Item.mk 4 "D"]) :=
  ⟨⟨by decide, by decide, by decide⟩,
    reorder_single_move sampleItems 1 3 (by decide) (by decide) (by decide)⟩

end ListSync
